import Mathlib

/-!
Shallow embedding of the layout core of `src/app.py`
(isoch12345/isoch-price-poster) and proofs about its specified behaviour.

Strings are modelled as `List Char` (Python `str` values, compared and
sliced by code point).  The PIL width oracle `draw.textlength(s, font=font)`
is modelled as an arbitrary function `Measure : List Char → Nat` (one
such function per font); widths are natural numbers, which covers the
integer pixel budgets the program uses.  Currency amounts, which the
program holds as Python floats and prints with `:.2f`, are modelled as
exact non-negative amounts in hundredths (paise).
-/

namespace IsochPoster

/-- A font paired with PIL's `draw.textlength` width oracle: the measured
width of a string under that font. -/
abbrev Measure := List Char → Nat

/-- The truncation marker `"…"` appended by `ellipsize` (src/app.py line 177):
a single HORIZONTAL ELLIPSIS character. -/
def ellipsisMark : List Char := ['…']

/-- The shrink-from-right loop of `ellipsize` (src/app.py lines 176-178):
`while s and draw.textlength(s + "…", font=font) > max_width: s = s[:-1]`.
Each iteration removes exactly one character, so running it with
`fuel = s.length` (as `ellipsizeShrink` does) executes the loop to
completion; the fuel argument only makes the recursion structural. -/
def shrinkAux (w : Measure) (maxW : Nat) : Nat → List Char → List Char
  | 0, s => s
  | fuel + 1, s =>
    if s ≠ [] ∧ w (s ++ ellipsisMark) > maxW then
      shrinkAux w maxW fuel s.dropLast
    else s

/-- The shrink loop of `ellipsize` run to completion from `s`. -/
def ellipsizeShrink (w : Measure) (maxW : Nat) (s : List Char) : List Char :=
  shrinkAux w maxW s.length s

/-- `ellipsize(draw, text, font, max_width)` from src/app.py lines 173-179:
return `text` if it already fits, otherwise drop characters from the right
until `s + "…"` fits (or `s` is exhausted) and return `s + "…"` if `s` is
non-empty, else `"…"` alone. -/
def ellipsize (w : Measure) (text : List Char) (maxW : Nat) : List Char :=
  if w text ≤ maxW then text
  else
    let s := ellipsizeShrink w maxW text
    if s ≠ [] then s ++ ellipsisMark else ellipsisMark

/-- Number of calls the shrink loop makes to the width oracle: the guard
`while s and draw.textlength(...) > max_width` measures once per evaluation
with non-empty `s` (the `and` short-circuits on empty `s`). -/
def shrinkCallsAux (w : Measure) (maxW : Nat) : Nat → List Char → Nat
  | 0, _ => 0
  | fuel + 1, s =>
    if s = [] then 0
    else 1 + (if w (s ++ ellipsisMark) > maxW then shrinkCallsAux w maxW fuel s.dropLast else 0)

/-- Total number of `draw.textlength` calls made by `ellipsize`: one for the
initial fit test (line 174), plus the loop's calls when the test fails. -/
def ellipsizeCalls (w : Measure) (text : List Char) (maxW : Nat) : Nat :=
  1 + (if w text ≤ maxW then 0 else shrinkCallsAux w maxW text.length text)

/-- A concrete fixed-pitch font: every character is 10 units wide.
Used to instantiate theorems at concrete inputs. -/
def charW10 : Measure := fun s => 10 * s.length

/-- A font's measure is prefix-monotone when a prefix of a string never
measures wider than the string itself — the FontMetric assumption of the
specification's data model. -/
def PrefixMono (w : Measure) : Prop :=
  ∀ s t : List Char, s <+: t → w s ≤ w t

/-! ### Canvas geometry (src/app.py lines 16-30) -/

/-- `CANVAS_W, CANVAS_H = 1080, 1600` (line 16). -/
def CANVAS_W : Nat := 1080

/-- Canvas height (line 16). -/
def CANVAS_H : Nat := 1600

/-- `PAD = 80` (line 17). -/
def PAD : Nat := 80

/-- `HEADER_H = 200` (line 19): the template banner above the table. -/
def HEADER_H : Nat := 200

/-- `STRIP_H = 60` (line 20). -/
def STRIP_H : Nat := 60

/-- `FOOTER_H = 140` (line 21): the reserved footer band. -/
def FOOTER_H : Nat := 140

/-- `TABLE_LEFT = PAD` (line 23). -/
def TABLE_LEFT : Nat := PAD

/-- `TABLE_RIGHT = CANVAS_W - PAD` (line 24). -/
def TABLE_RIGHT : Nat := CANVAS_W - PAD

/-- `TABLE_TOP = HEADER_H + STRIP_H + 20` (line 25): the content band's top,
where the table header row is drawn. -/
def TABLE_TOP : Nat := HEADER_H + STRIP_H + 20

/-- `COL_PRODUCT_W = int((TABLE_RIGHT - TABLE_LEFT) * 0.65)` (line 27);
`920 * 0.65` is exactly `598.00000000000001...` as a float and truncates to
598, which `920 * 65 / 100` also yields. -/
def COL_PRODUCT_W : Nat := (TABLE_RIGHT - TABLE_LEFT) * 65 / 100

/-- `COL_PRICE_W = (TABLE_RIGHT - TABLE_LEFT) - COL_PRODUCT_W` (line 28). -/
def COL_PRICE_W : Nat := (TABLE_RIGHT - TABLE_LEFT) - COL_PRODUCT_W

/-- `ROW_H = 62` (line 30): height of one table row. -/
def ROW_H : Nat := 62

/-- `max_rows_area_bottom = CANVAS_H - FOOTER_H - 30` (line 202): the lowest
admissible bottom edge for a row. -/
def maxRowsAreaBottom : Nat := CANVAS_H - FOOTER_H - 30

/-- `max_product_width = COL_PRODUCT_W - 24` (line 203): the width budget
handed to `ellipsize` for each product label. -/
def maxProductWidth : Nat := COL_PRODUCT_W - 24

/-- The first row is placed at `TABLE_TOP + ROW_H + 6` (lines 192-199:
the table header row occupies `[TABLE_TOP, TABLE_TOP + ROW_H)` and line 199
advances `y += ROW_H + 6`). -/
def rowsStartY : Nat := TABLE_TOP + ROW_H + 6

/-- Vertical space consumed by the table header row: `ROW_H + 6`
(line 199, `y += ROW_H + 6`). This is the `headerHeight` of the
specification's CanvasSpec. -/
def headerBandH : Nat := ROW_H + 6

/-- `availableRows` exactly as the specification's formula defines it:
`floor((height − footerHeight − contentTop − headerHeight) / rowHeight)`,
with the geometry of src/app.py (`contentTop = TABLE_TOP`,
`headerHeight = headerBandH`). -/
def availableRows : Nat := (CANVAS_H - FOOTER_H - TABLE_TOP - headerBandH) / ROW_H

/-! ### Layout plan (build_poster's table section, src/app.py lines 192-218) -/

/-- Role of a placed text in the layout plan, following the specification's
PlacedText role enumeration. `build_poster` itself only ever produces
`header`, `rowLabel` and `rowValue` entries; the remaining roles exist so
that claims about the other roles (in particular the truncation marker) can
be stated. -/
inductive Role
  | title
  | header
  | rowLabel
  | rowValue
  | footer
  | marker
deriving DecidableEq

/-- One positioned string of the layout plan. `y` is the top of the row
band `[y, y + ROW_H)` the entry occupies (the code draws the text at
`y + 18` inside that band and fills the band's rectangle, lines 209-216). -/
structure PlacedText where
  text : List Char
  x : Int
  y : Nat
  role : Role
  rowIndex : Option Nat
deriving DecidableEq

/-- One input row for `build_poster`: a product label and its delivered
price. The price, a Python float formatted with two decimals, is modelled
exactly in hundredths (paise). -/
structure Row where
  label : List Char
  pricePaise : Nat
deriving DecidableEq

/-- The two fraction digits of `f"{p/100:.2f}"`: tens and units of the
paise remainder. -/
def twoFrac (paise : Nat) : List Char :=
  [Nat.digitChar (paise % 100 / 10), Nat.digitChar (paise % 100 % 10)]

/-- `price = f"₹ {float(r.DeliveredPrice):.2f}"` (line 214) for an exact
amount of `paise` hundredths: the currency prefix, the integer digits, a
dot, then exactly two fraction digits. -/
def formatPrice (paise : Nat) : List Char :=
  '₹' :: ' ' :: (Nat.toDigits 10 (paise / 100) ++ '.' :: twoFrac paise)

/-- The two placed texts of one table row (lines 211-216): the ellipsized
product label, left-aligned at `TABLE_LEFT + 12`, and the formatted price,
right-aligned at `TABLE_RIGHT - 12 - width(price)`. The price is drawn
as formatted and is never passed through `ellipsize`. -/
def placeRow (w : Measure) (r : Row) (y : Nat) (i : Nat) : List PlacedText :=
  [{ text := ellipsize w r.label maxProductWidth
   , x := (TABLE_LEFT : Int) + 12
   , y := y
   , role := Role.rowLabel
   , rowIndex := some i },
   { text := formatPrice r.pricePaise
   , x := (TABLE_RIGHT : Int) - 12 - (w (formatPrice r.pricePaise) : Int)
   , y := y
   , role := Role.rowValue
   , rowIndex := some i }]

/-- The row loop of `build_poster` (lines 204-218): starting at `y`, place
each row unless `y + ROW_H > max_rows_area_bottom`, in which case stop
(`break`) — the remaining rows are dropped with no marker of any kind —
and otherwise advance `y` by `ROW_H`. -/
def placeRowsFrom (w : Measure) : List Row → Nat → Nat → List PlacedText
  | [], _, _ => []
  | r :: rest, y, i =>
    if y + ROW_H > maxRowsAreaBottom then []
    else placeRow w r y i ++ placeRowsFrom w rest (y + ROW_H) (i + 1)

/-- The table header row, drawn unconditionally at `TABLE_TOP` before the
row loop (lines 192-198). -/
def headerPlaced : PlacedText :=
  { text := "PRODUCT".toList
  , x := (TABLE_LEFT : Int) + 12
  , y := TABLE_TOP
  , role := Role.header
  , rowIndex := none }

/-- All row entries that `build_poster` places for the given input rows. -/
def planRows (w : Measure) (rows : List Row) : List PlacedText :=
  placeRowsFrom w rows rowsStartY 0

/-- The layout plan of `build_poster`'s table section (lines 192-218):
the header placement followed by the placed rows. -/
def buildPlan (w : Measure) (rows : List Row) : List PlacedText :=
  headerPlaced :: planRows w rows

/-- The label texts of the plan's row-label entries, in plan order. -/
def labelTexts (pts : List PlacedText) : List (List Char) :=
  (pts.filter fun e => e.role == Role.rowLabel).map PlacedText.text

/-- The value texts of the plan's row-value entries, in plan order. -/
def valueTexts (pts : List PlacedText) : List (List Char) :=
  (pts.filter fun e => e.role == Role.rowValue).map PlacedText.text

/-- Number of input rows dropped by the row loop's `break`: the rows the
plan does not place. This is the observable truncation count of the plan. -/
def truncatedRowCount (w : Measure) (rows : List Row) : Nat :=
  rows.length - (labelTexts (planRows w rows)).length

/-- Number of row slots available from vertical position `y`: how many
`ROW_H`-tall rows fit between `y` and `max_rows_area_bottom`. -/
def slots (y : Nat) : Nat := (maxRowsAreaBottom - y) / ROW_H

/-- Eighteen one-character rows: one more than the canvas can hold.
Used to exhibit truncation at a concrete input. -/
def rows18 : List Row := List.replicate 18 { label := ['a'], pricePaise := 100 }

/-- Two concrete rows used to instantiate layout theorems. -/
def demoRows : List Row :=
  [{ label := ['a'], pricePaise := 1250 }, { label := ['b'], pricePaise := 500 }]

/-! ### Upstream data pipeline (src/app.py lines 255-264 and 413-415) -/

/-- One record of the deduplicated price table `df_sel`: destination,
product and delivered price (modelled in exact hundredths). -/
structure SrcRec where
  dest : List Char
  product : List Char
  pricePaise : Nat
deriving DecidableEq

/-- Ordering of records by product label, by code point as Python compares
`str` values (pandas `sort_values("Product")`). -/
def prodLe (a b : SrcRec) : Prop := a.product ≤ b.product

/-- Strict version of `prodLe`. -/
def prodLt (a b : SrcRec) : Prop := a.product < b.product

instance : DecidableRel prodLe := fun a b =>
  inferInstanceAs (Decidable (a.product ≤ b.product))

instance : DecidableRel prodLt := fun a b =>
  inferInstanceAs (Decidable (a.product < b.product))

instance : IsTotal SrcRec prodLe := ⟨fun a b => le_total a.product b.product⟩

instance : IsTrans SrcRec prodLe := ⟨fun _ _ _ h1 h2 => le_trans h1 h2⟩

instance : IsAntisymm SrcRec prodLt := ⟨fun _ _ h1 h2 => absurd h2 (lt_asymm h1)⟩

instance : IsAntisymm (List Char) (fun a b => a ≤ b) := ⟨fun _ _ h1 h2 => le_antisymm h1 h2⟩

/-- `df_sel[df_sel["Destination"] == d][["Product", "DeliveredPrice"]]
.sort_values("Product")` (lines 264 and 414): the records of destination
`d` in ascending product order. The records kept by `parse_excel` have
distinct products per destination, so the sorted order is unique and any
correct sort yields it; insertion sort realizes it here. -/
def selectDestRows (d : List Char) (data : List SrcRec) : List SrcRec :=
  List.insertionSort prodLe (data.filter fun r => decide (r.dest = d))

/-- `sorted(df_sel["Destination"].unique().tolist())` (line 255): the
destinations in first-appearance order, deduplicated, then sorted
ascending. -/
def masterDestinations (data : List SrcRec) : List (List Char) :=
  List.insertionSort (fun a b : List Char => a ≤ b) ((data.map SrcRec.dest).dedup)

/-- The rows handed to `build_poster` for destination `d` (lines 414-415):
the sorted selection, as (label, price) rows. -/
def rowsFor (d : List Char) (data : List SrcRec) : List Row :=
  (selectDestRows d data).map fun r => { label := r.product, pricePaise := r.pricePaise }

/-- The guarantee `parse_excel` establishes by
`df.groupby(["Destination", "Product"], as_index=False)["DeliveredPrice"].min()`
(line 159): no two records share both destination and product. -/
def KeysNodup (data : List SrcRec) : Prop :=
  data.Pairwise fun a b => a.dest = b.dest → a.product ≠ b.product

/-- Concrete two-record data set. -/
def dataA : List SrcRec :=
  [{ dest := ['B'], product := ['y'], pricePaise := 200 },
   { dest := ['A'], product := ['x'], pricePaise := 100 }]

/-- `dataA` with the two records swapped. -/
def dataB : List SrcRec :=
  [{ dest := ['A'], product := ['x'], pricePaise := 100 },
   { dest := ['B'], product := ['y'], pricePaise := 200 }]

/-! ### Proofs -/

lemma charW10_prefixMono : PrefixMono charW10 := by
  intro s t h
  exact Nat.mul_le_mul_left 10 h.length_le

/-- The shrink loop's result is a prefix of its argument, the loop guard is
false at exit, and every strictly longer prefix of the argument failed the
fit test — provided the fuel covers the argument's length. -/
lemma shrinkAux_spec (w : Measure) (maxW : Nat) :
    ∀ (fuel : Nat) (s : List Char), s.length ≤ fuel →
      (shrinkAux w maxW fuel s <+: s)
      ∧ (shrinkAux w maxW fuel s = [] ∨ w (shrinkAux w maxW fuel s ++ ellipsisMark) ≤ maxW)
      ∧ (∀ k, (shrinkAux w maxW fuel s).length < k → k ≤ s.length →
          w (s.take k ++ ellipsisMark) > maxW) := by
  intro fuel
  induction fuel with
  | zero =>
    intro s hs
    have hnil : s = [] := List.eq_nil_of_length_eq_zero (Nat.le_zero.mp hs)
    subst hnil
    refine ⟨List.prefix_refl _, Or.inl rfl, ?_⟩
    intro k hk hk'
    omega
  | succ fuel ih =>
    intro s hs
    by_cases hguard : s ≠ [] ∧ w (s ++ ellipsisMark) > maxW
    · have hstep : shrinkAux w maxW (fuel + 1) s = shrinkAux w maxW fuel s.dropLast := by
        simp [shrinkAux, hguard]
      have hslen : 0 < s.length := List.length_pos.mpr hguard.1
      have hdlen : s.dropLast.length = s.length - 1 := by
        simp [List.length_dropLast]
      have hfuel : s.dropLast.length ≤ fuel := by omega
      obtain ⟨hpre, hexit, hlong⟩ := ih s.dropLast hfuel
      refine ⟨?_, ?_, ?_⟩
      · rw [hstep]
        exact hpre.trans (List.dropLast_prefix s)
      · rw [hstep]; exact hexit
      · intro k hk hk'
        rw [hstep] at hk
        rcases Nat.lt_or_ge k s.length with hlt | hge
        · have hk2 : k ≤ s.dropLast.length := by omega
          have htake : s.dropLast.take k = s.take k := by
            rw [List.dropLast_eq_take, List.take_take]
            congr 1
            omega
          have := hlong k hk hk2
          rwa [htake] at this
        · have hkeq : k = s.length := by omega
          rw [hkeq, List.take_length]
          exact hguard.2
    · have hstep : shrinkAux w maxW (fuel + 1) s = s := by
        simp only [shrinkAux, if_neg hguard]
      refine ⟨by rw [hstep], ?_, ?_⟩
      · rw [hstep]
        rcases not_and_or.mp hguard with h | h
        · exact Or.inl (not_not.mp h)
        · exact Or.inr (Nat.le_of_not_lt h)
      · intro k hk hk'
        rw [hstep] at hk
        omega

/-- Specialization of `shrinkAux_spec` to the loop as `ellipsize` runs it. -/
lemma ellipsizeShrink_spec (w : Measure) (maxW : Nat) (s : List Char) :
    (ellipsizeShrink w maxW s <+: s)
    ∧ (ellipsizeShrink w maxW s = [] ∨ w (ellipsizeShrink w maxW s ++ ellipsisMark) ≤ maxW)
    ∧ (∀ k, (ellipsizeShrink w maxW s).length < k → k ≤ s.length →
        w (s.take k ++ ellipsisMark) > maxW) :=
  shrinkAux_spec w maxW s.length s (Nat.le_refl _)

/-- The shrink loop makes at most `s.length` width-oracle calls. -/
lemma shrinkCallsAux_le (w : Measure) (maxW : Nat) :
    ∀ (fuel : Nat) (s : List Char), shrinkCallsAux w maxW fuel s ≤ s.length := by
  intro fuel
  induction fuel with
  | zero => intro s; simp [shrinkCallsAux]
  | succ fuel ih =>
    intro s
    by_cases hs : s = []
    · simp [shrinkCallsAux, hs]
    · have hlen : 0 < s.length := List.length_pos.mpr hs
      have hd : s.dropLast.length = s.length - 1 := by simp [List.length_dropLast]
      have := ih s.dropLast
      by_cases hw : w (s ++ ellipsisMark) > maxW
      · simp only [shrinkCallsAux, if_neg hs, if_pos hw]
        omega
      · simp only [shrinkCallsAux, if_neg hs, if_neg hw]
        omega

/-- Claim C9: `ellipsize` terminates for every input (it is a total Lean
function) and makes at most `text.length + 1` calls to the width-measurement
oracle: one for the initial fit test plus at most one per character removed
by the shrink-from-right loop. -/
theorem C9_ellipsize_linear_calls (w : Measure) (text : List Char) (maxW : Nat) :
    ellipsizeCalls w text maxW ≤ text.length + 1 := by
  unfold ellipsizeCalls
  by_cases hfit : w text ≤ maxW
  · simp [hfit]
  · have := shrinkCallsAux_le w maxW text.length text
    simp only [if_neg hfit]
    omega

/-- Claim C4: `ellipsize` returns the text unchanged when it already fits;
otherwise the longest prefix of the text that still fits with the marker
`"…"` appended (the empty prefix giving the bare marker); when no prefix at
all fits it still returns the bare marker; and it never returns the empty
string for non-empty input. -/
theorem C4_ellipsize_longest_fitting (w : Measure) (text : List Char) (maxW : Nat) :
    ((w text ≤ maxW ∧ ellipsize w text maxW = text)
      ∨ (∃ p, p <+: text ∧ ellipsize w text maxW = p ++ ellipsisMark
          ∧ w (p ++ ellipsisMark) ≤ maxW
          ∧ ∀ q, q <+: text → w (q ++ ellipsisMark) ≤ maxW → q.length ≤ p.length)
      ∨ (ellipsize w text maxW = ellipsisMark
          ∧ ∀ q, q <+: text → maxW < w (q ++ ellipsisMark)))
    ∧ (text ≠ [] → ellipsize w text maxW ≠ []) := by
  by_cases hfit : w text ≤ maxW
  · have hval : ellipsize w text maxW = text := by simp [ellipsize, hfit]
    exact ⟨Or.inl ⟨hfit, hval⟩, fun h => by rw [hval]; exact h⟩
  · obtain ⟨hpre, hexit, hlong⟩ := ellipsizeShrink_spec w maxW text
    by_cases hr : ellipsizeShrink w maxW text = []
    · have hval : ellipsize w text maxW = ellipsisMark := by
        simp [ellipsize, hfit, hr]
      have hfail : ∀ q, q <+: text → 0 < q.length → maxW < w (q ++ ellipsisMark) := by
        intro q hq hqlen
        have hqtake : q = text.take q.length := List.prefix_iff_eq_take.mp hq
        have := hlong q.length (by rw [hr]; simpa using hqlen) hq.length_le
        rwa [← hqtake] at this
      by_cases hm : w ellipsisMark ≤ maxW
      · refine ⟨Or.inr (Or.inl ⟨[], List.nil_prefix, by simpa using hval, by simpa using hm, ?_⟩),
          fun _ => by simp [hval, ellipsisMark]⟩
        intro q hq hqfit
        by_contra hqlen
        exact absurd hqfit (Nat.not_le.mpr (hfail q hq (by omega)))
      · refine ⟨Or.inr (Or.inr ⟨hval, ?_⟩), fun _ => by simp [hval, ellipsisMark]⟩
        intro q hq
        rcases Nat.eq_zero_or_pos q.length with hq0 | hq0
        · have : q = [] := List.eq_nil_of_length_eq_zero hq0
          subst this
          simpa using Nat.lt_of_not_le hm
        · exact hfail q hq hq0
    · have hval : ellipsize w text maxW = ellipsizeShrink w maxW text ++ ellipsisMark := by
        simp [ellipsize, hfit, hr]
      have hfitp : w (ellipsizeShrink w maxW text ++ ellipsisMark) ≤ maxW := hexit.resolve_left hr
      refine ⟨Or.inr (Or.inl ⟨ellipsizeShrink w maxW text, hpre, hval, hfitp, ?_⟩),
        fun _ => by simp [hval, ellipsisMark]⟩
      intro q hq hqfit
      by_contra hqlen
      have hqtake : q = text.take q.length := List.prefix_iff_eq_take.mp hq
      have := hlong q.length (by omega) hq.length_le
      rw [← hqtake] at this
      omega

/-- Witness for C4 at a concrete input: for the one-character text `"a"`
under a fixed-pitch font and budget 0, the result is non-empty. -/
theorem C4_ellipsize_longest_fitting_witness :
    ellipsize charW10 ['a'] 0 ≠ [] :=
  (C4_ellipsize_longest_fitting charW10 ['a'] 0).2 (by decide)

/-- Counterexample to claim C3 as stated: for the non-empty text `"a"` under
a fixed-pitch 10-units-per-character font and `maxWidth = 0`, `ellipsize`
returns the marker `"…"` (measured width 10 > 0), not the empty string, so
both the width bound and the empty-string clause fail at `maxWidth = 0`. -/
theorem C3_counterexample :
    ellipsize charW10 ['a'] 0 = ellipsisMark
    ∧ ¬ (charW10 (ellipsize charW10 ['a'] 0) ≤ 0)
    ∧ ellipsize charW10 ['a'] 0 ≠ [] := by decide

/-- Claim C3 amended: the measured width of the result is ≤ `maxWidth`
except possibly when the result is the bare marker (which happens only when
not even the marker fits); and for `maxWidth = 0` the result is the empty
string when the text is empty (for a font measuring the empty string as 0),
while non-empty text may yield the bare marker instead. -/
theorem C3_ellipsize_width_bound (w : Measure) (text : List Char) (maxW : Nat)
    (h0 : w [] = 0) :
    (w (ellipsize w text maxW) ≤ maxW ∨ ellipsize w text maxW = ellipsisMark)
    ∧ (text = [] → ellipsize w text maxW = []) := by
  constructor
  · by_cases hfit : w text ≤ maxW
    · left
      rw [ellipsize, if_pos hfit]
      exact hfit
    · obtain ⟨_, hexit, _⟩ := ellipsizeShrink_spec w maxW text
      by_cases hr : ellipsizeShrink w maxW text = []
      · right
        simp [ellipsize, hfit, hr]
      · left
        have hval : ellipsize w text maxW = ellipsizeShrink w maxW text ++ ellipsisMark := by
          simp [ellipsize, hfit, hr]
        rw [hval]
        exact hexit.resolve_left hr
  · intro htext
    subst htext
    have : w [] ≤ maxW := by omega
    simp [ellipsize, this]

/-- Witness for the amended C3 at a concrete input: empty text under the
fixed-pitch font with `maxWidth = 0` yields the empty string, within bound. -/
theorem C3_ellipsize_width_bound_witness :
    charW10 [] = 0
    ∧ ((charW10 (ellipsize charW10 [] 0) ≤ 0 ∨ ellipsize charW10 [] 0 = ellipsisMark)
        ∧ ([] = ([] : List Char) → ellipsize charW10 [] 0 = [])) :=
  ⟨by decide, C3_ellipsize_width_bound charW10 [] 0 (by decide)⟩

/-- Claim C6: `ellipsize` is idempotent for every prefix-monotone font
measure (the specification's FontMetric assumption): applying it to its own
output with the same font and budget returns that output unchanged. -/
theorem C6_ellipsize_idempotent (w : Measure) (hw : PrefixMono w)
    (text : List Char) (maxW : Nat) :
    ellipsize w (ellipsize w text maxW) maxW = ellipsize w text maxW := by
  by_cases hfit : w text ≤ maxW
  · simp [ellipsize, hfit]
  · obtain ⟨_, hexit, _⟩ := ellipsizeShrink_spec w maxW text
    by_cases hr : ellipsizeShrink w maxW text = []
    · have hval : ellipsize w text maxW = ellipsisMark := by
        simp [ellipsize, hfit, hr]
      rw [hval]
      by_cases hm : w ellipsisMark ≤ maxW
      · simp [ellipsize, hm]
      · have hmm : maxW < w (ellipsisMark ++ ellipsisMark) :=
          Nat.lt_of_not_le fun hle =>
            hm (Nat.le_trans (hw ellipsisMark (ellipsisMark ++ ellipsisMark)
              (List.prefix_append _ _)) hle)
        have hmm2 : maxW < w ('…' :: ellipsisMark) := by
          have hcat : ('…' :: ellipsisMark) = ellipsisMark ++ ellipsisMark := by
            simp [ellipsisMark]
          rw [hcat]
          exact hmm
        have hshrink : ellipsizeShrink w maxW ellipsisMark = [] := by
          simp only [ellipsizeShrink, ellipsisMark]
          simp [shrinkAux, hmm2]
        simp [ellipsize, hm, hshrink]
    · have hval : ellipsize w text maxW = ellipsizeShrink w maxW text ++ ellipsisMark := by
        simp [ellipsize, hfit, hr]
      have hfitp : w (ellipsizeShrink w maxW text ++ ellipsisMark) ≤ maxW :=
        hexit.resolve_left hr
      rw [hval]
      simp [ellipsize, hfitp]

/-- Witness for C6 at a concrete input: the fixed-pitch font is
prefix-monotone and idempotence holds for `"ab"` at budget 15. -/
theorem C6_ellipsize_idempotent_witness :
    ellipsize charW10 (ellipsize charW10 ['a', 'b'] 15) 15
      = ellipsize charW10 ['a', 'b'] 15 :=
  C6_ellipsize_idempotent charW10 charW10_prefixMono ['a', 'b'] 15

/-- When the next row does not fit, no slot is left from `y`. -/
lemma slots_eq_zero {y : Nat} (hg : maxRowsAreaBottom < y + ROW_H) : slots y = 0 := by
  rw [slots]
  apply Nat.div_eq_of_lt
  simp only [maxRowsAreaBottom, ROW_H, CANVAS_H, FOOTER_H] at hg ⊢
  omega

/-- When the next row fits, one slot is consumed and the rest remain. -/
lemma slots_succ {y : Nat} (hle : y + ROW_H ≤ maxRowsAreaBottom) :
    slots y = slots (y + ROW_H) + 1 := by
  rw [slots, slots]
  have hsplit : maxRowsAreaBottom - y = (maxRowsAreaBottom - (y + ROW_H)) + ROW_H := by
    simp only [maxRowsAreaBottom, ROW_H, CANVAS_H, FOOTER_H] at hle ⊢
    omega
  rw [hsplit]
  exact Nat.add_div_right _ (by simp [ROW_H])

/-- The row loop places the labels of exactly the first `slots y` input rows,
in input order, each passed through `ellipsize` with the product budget. -/
lemma labelTexts_placeRowsFrom (w : Measure) :
    ∀ (rows : List Row) (y i : Nat),
      labelTexts (placeRowsFrom w rows y i)
        = (rows.take (slots y)).map fun r => ellipsize w r.label maxProductWidth := by
  intro rows
  induction rows with
  | nil => intro y i; simp [placeRowsFrom, labelTexts]
  | cons r rest ih =>
    intro y i
    by_cases hg : maxRowsAreaBottom < y + ROW_H
    · rw [slots_eq_zero hg]
      simp [placeRowsFrom, hg, labelTexts]
    · have hle : y + ROW_H ≤ maxRowsAreaBottom := Nat.le_of_not_lt hg
      rw [slots_succ hle]
      simp only [placeRowsFrom, if_neg (by omega : ¬ y + ROW_H > maxRowsAreaBottom),
        List.take_succ_cons, List.map_cons]
      rw [← ih (y + ROW_H) (i + 1)]
      simp [labelTexts, placeRow, List.filter_append]

/-- The row loop places the values of exactly the first `slots y` input rows,
in input order, each formatted by `formatPrice` and not ellipsized. -/
lemma valueTexts_placeRowsFrom (w : Measure) :
    ∀ (rows : List Row) (y i : Nat),
      valueTexts (placeRowsFrom w rows y i)
        = (rows.take (slots y)).map fun r => formatPrice r.pricePaise := by
  intro rows
  induction rows with
  | nil => intro y i; simp [placeRowsFrom, valueTexts]
  | cons r rest ih =>
    intro y i
    by_cases hg : maxRowsAreaBottom < y + ROW_H
    · rw [slots_eq_zero hg]
      simp [placeRowsFrom, hg, valueTexts]
    · have hle : y + ROW_H ≤ maxRowsAreaBottom := Nat.le_of_not_lt hg
      rw [slots_succ hle]
      simp only [placeRowsFrom, if_neg (by omega : ¬ y + ROW_H > maxRowsAreaBottom),
        List.take_succ_cons, List.map_cons]
      rw [← ih (y + ROW_H) (i + 1)]
      simp [valueTexts, placeRow, List.filter_append]

/-- Every entry the row loop emits sits at `y + ROW_H * k` for the row's
index offset `k`, carries that row index, fits above
`max_rows_area_bottom`, and is a label or a value entry. -/
lemma mem_placeRowsFrom (w : Measure) :
    ∀ (rows : List Row) (y i : Nat) (e : PlacedText), e ∈ placeRowsFrom w rows y i →
      ∃ k, e.y = y + ROW_H * k ∧ e.rowIndex = some (i + k)
        ∧ y + ROW_H * k + ROW_H ≤ maxRowsAreaBottom
        ∧ (e.role = Role.rowLabel ∨ e.role = Role.rowValue) := by
  intro rows
  induction rows with
  | nil => intro y i e he; simp [placeRowsFrom] at he
  | cons r rest ih =>
    intro y i e he
    by_cases hg : maxRowsAreaBottom < y + ROW_H
    · simp [placeRowsFrom, hg] at he
    · have hle : y + ROW_H ≤ maxRowsAreaBottom := Nat.le_of_not_lt hg
      rw [placeRowsFrom, if_neg (by omega : ¬ y + ROW_H > maxRowsAreaBottom)] at he
      rcases List.mem_append.mp he with he1 | he2
      · rw [placeRow] at he1
        simp only [List.mem_cons, List.not_mem_nil, or_false] at he1
        rcases he1 with rfl | rfl
        · exact ⟨0, by simp, by simp, by simpa using hle, Or.inl rfl⟩
        · exact ⟨0, by simp, by simp, by simpa using hle, Or.inr rfl⟩
      · obtain ⟨k, hy, hidx, hb, hrole⟩ := ih (y + ROW_H) (i + 1) e he2
        refine ⟨k + 1, ?_, ?_, ?_, hrole⟩
        · rw [hy]
          simp only [ROW_H]
          omega
        · rw [hidx]
          exact congrArg some (by omega)
        · simp only [ROW_H] at hb ⊢
          omega

/-- Claim C1: every row placed by `build_poster`'s row loop occupies the
band `[y, y + ROW_H)` with `y + ROW_H ≤ CANVAS_H - FOOTER_H` (no intrusion
into the footer band), and the bands of any two entries of different rows
are disjoint. -/
theorem C1_rows_disjoint_and_above_footer (w : Measure) (rows : List Row)
    (e : PlacedText) (he : e ∈ planRows w rows) :
    e.y + ROW_H ≤ CANVAS_H - FOOTER_H
    ∧ ∀ e2 ∈ planRows w rows, e.rowIndex ≠ e2.rowIndex →
        e.y + ROW_H ≤ e2.y ∨ e2.y + ROW_H ≤ e.y := by
  obtain ⟨k, hy, hidx, hb, _⟩ := mem_placeRowsFrom w rows rowsStartY 0 e he
  constructor
  · rw [hy]
    simp only [maxRowsAreaBottom, CANVAS_H, FOOTER_H, ROW_H, rowsStartY, TABLE_TOP,
      HEADER_H, STRIP_H] at hb ⊢
    omega
  · intro e2 he2 hne
    obtain ⟨k2, hy2, hidx2, _, _⟩ := mem_placeRowsFrom w rows rowsStartY 0 e2 he2
    have hkne : k ≠ k2 := by
      intro hk
      exact hne (by rw [hidx, hidx2, hk])
    simp only [ROW_H] at hy hy2 ⊢
    rcases Nat.lt_or_ge k k2 with h | h
    · left; omega
    · right; omega

/-- Witness for C1 at a concrete input: the two label entries of the
two-row demo plan occupy disjoint bands above the footer. -/
theorem C1_rows_disjoint_and_above_footer_witness :
    (⟨['a'], 92, 348, Role.rowLabel, some 0⟩ : PlacedText).y + ROW_H ≤ CANVAS_H - FOOTER_H
    ∧ ((⟨['a'], 92, 348, Role.rowLabel, some 0⟩ : PlacedText).y + ROW_H
          ≤ (⟨['b'], 92, 410, Role.rowLabel, some 1⟩ : PlacedText).y
        ∨ (⟨['b'], 92, 410, Role.rowLabel, some 1⟩ : PlacedText).y + ROW_H
          ≤ (⟨['a'], 92, 348, Role.rowLabel, some 0⟩ : PlacedText).y) :=
  ⟨(C1_rows_disjoint_and_above_footer charW10 demoRows _ (by decide)).1,
   (C1_rows_disjoint_and_above_footer charW10 demoRows _ (by decide)).2 _ (by decide) (by decide)⟩

/-- Claim C2: the layout places exactly `min n availableRows` rows — the
first that many input rows, in input order — where `availableRows` is the
specification's formula evaluated on this canvas, and the truncation count
is `max 0 (n - availableRows)`. -/
theorem C2_places_min_available_rows (w : Measure) (rows : List Row) :
    (labelTexts (planRows w rows)).length = min rows.length availableRows
    ∧ labelTexts (planRows w rows)
        = (rows.take (min rows.length availableRows)).map
            (fun r => ellipsize w r.label maxProductWidth)
    ∧ (truncatedRowCount w rows : Int)
        = max 0 ((rows.length : Int) - (availableRows : Int))
    ∧ availableRows = (CANVAS_H - FOOTER_H - TABLE_TOP - headerBandH) / ROW_H := by
  have hslots : slots rowsStartY = availableRows := by decide
  have h1 : labelTexts (planRows w rows)
      = (rows.take availableRows).map fun r => ellipsize w r.label maxProductWidth := by
    rw [planRows, labelTexts_placeRowsFrom, hslots]
  have hlen : (labelTexts (planRows w rows)).length = min availableRows rows.length := by
    rw [h1, List.length_map, List.length_take]
  refine ⟨?_, ?_, ?_, rfl⟩
  · rw [hlen]; omega
  · rw [h1]
    congr 1
    exact (List.take_eq_take.mpr (by omega)).symm
  · rw [truncatedRowCount, hlen]
    omega

/-- Claim C7: the header row is placed first, unconditionally, at
`TABLE_TOP`; with zero input rows the plan is exactly the header placement
and the truncation count is zero. -/
theorem C7_header_always_first (w : Measure) (rows : List Row) :
    (buildPlan w rows).head? = some headerPlaced
    ∧ headerPlaced.role = Role.header
    ∧ headerPlaced.y = TABLE_TOP
    ∧ headerPlaced.rowIndex = none
    ∧ buildPlan w [] = [headerPlaced]
    ∧ truncatedRowCount w [] = 0 :=
  ⟨rfl, rfl, rfl, rfl, rfl, rfl⟩

/-- A digit below ten renders as a decimal digit character. -/
lemma digitChar_isDigit {d : Nat} (hd : d < 10) : (Nat.digitChar d).isDigit = true := by
  interval_cases d <;> decide

/-- Claim C8: each placed row's label is the input label passed through
`ellipsize` with budget `COL_PRODUCT_W - 24`, while its value is the
formatted price — currency prefix, integer digits, a dot and exactly two
digit characters — and is never passed through `ellipsize`;
`formatPrice` renders 12.50 rupees as `"₹ 12.50"`. -/
theorem C8_label_ellipsized_value_formatted (w : Measure) (rows : List Row) :
    labelTexts (planRows w rows)
      = (rows.take availableRows).map (fun r => ellipsize w r.label (COL_PRODUCT_W - 24))
    ∧ valueTexts (planRows w rows)
      = (rows.take availableRows).map (fun r => formatPrice r.pricePaise)
    ∧ formatPrice 1250 = "₹ 12.50".toList
    ∧ ∀ p : Nat,
        formatPrice p = '₹' :: ' ' :: (Nat.toDigits 10 (p / 100) ++ '.' :: twoFrac p)
        ∧ (twoFrac p).length = 2
        ∧ ∀ c ∈ twoFrac p, c.isDigit = true := by
  have hslots : slots rowsStartY = availableRows := by decide
  refine ⟨?_, ?_, by decide, ?_⟩
  · rw [planRows, labelTexts_placeRowsFrom, hslots]
    rfl
  · rw [planRows, valueTexts_placeRowsFrom, hslots]
  · intro p
    refine ⟨rfl, rfl, ?_⟩
    intro c hc
    rw [twoFrac] at hc
    simp only [List.mem_cons, List.not_mem_nil, or_false] at hc
    rcases hc with rfl | rfl
    · exact digitChar_isDigit (by omega)
    · exact digitChar_isDigit (by omega)

/-- Counterexample to claim C5 as stated: with 18 one-character rows, one
row is truncated, the position immediately following the last placed row
(`y = 1402`) still lies before the footer band (1460), yet the plan
contains no entry of the marker role — `build_poster` has no marker code
path at all. -/
theorem C5_counterexample :
    truncatedRowCount charW10 rows18 = 1
    ∧ (∃ e ∈ planRows charW10 rows18, e.rowIndex = some 16 ∧ e.y = rowsStartY + ROW_H * 16)
    ∧ rowsStartY + ROW_H * 17 < CANVAS_H - FOOTER_H
    ∧ ∀ e ∈ buildPlan charW10 rows18, e.role ≠ Role.marker := by decide

/-- Claim C5 amended: `build_poster` never emits a truncation marker under
any circumstances; rows beyond capacity are dropped silently, observable
only through the reduced placed-row count. -/
theorem C5_no_marker_ever (w : Measure) (rows : List Row) :
    ∀ e ∈ buildPlan w rows, e.role ≠ Role.marker := by
  intro e he
  rw [buildPlan] at he
  rcases List.mem_cons.mp he with rfl | he2
  · intro h
    simp [headerPlaced] at h
  · obtain ⟨_, _, _, _, hrole⟩ := mem_placeRowsFrom w rows rowsStartY 0 e he2
    rcases hrole with h | h <;> simp [h]

/-- Witness for the amended C5 at a concrete input: the header entry of the
empty-input plan is not a marker. -/
theorem C5_no_marker_ever_witness :
    headerPlaced ∈ buildPlan charW10 [] ∧ headerPlaced.role ≠ Role.marker :=
  ⟨by decide, C5_no_marker_ever charW10 [] headerPlaced (by decide)⟩

/-- Claim C10: the application pre-sorts for the layout — the rows selected
for one destination's poster are in ascending product order, the master
image's destinations are in ascending order, the labels handed to
`build_poster` are exactly the selected products, and (given the
distinct-(destination, product) guarantee `parse_excel` establishes) the
selection and destination list do not depend on the order of the uploaded
rows. -/
theorem C10_app_presorts (d : List Char) (data data' : List SrcRec) :
    List.Sorted prodLe (selectDestRows d data)
    ∧ List.Sorted (fun a b : List Char => a ≤ b) (masterDestinations data)
    ∧ (rowsFor d data).map Row.label = (selectDestRows d data).map SrcRec.product
    ∧ (KeysNodup data → data.Perm data' →
        selectDestRows d data = selectDestRows d data'
        ∧ masterDestinations data = masterDestinations data') := by
  refine ⟨List.sorted_insertionSort _ _, List.sorted_insertionSort _ _, ?_, ?_⟩
  · simp [rowsFor, List.map_map]
  · intro hk hp
    constructor
    · have hperm : (data.filter fun r => decide (r.dest = d)).Perm
          (data'.filter fun r => decide (r.dest = d)) := hp.filter _
      have hchain : (selectDestRows d data).Perm (selectDestRows d data') :=
        (List.perm_insertionSort prodLe _).trans
          (hperm.trans (List.perm_insertionSort prodLe _).symm)
      have hne1 : (data.filter fun r => decide (r.dest = d)).Pairwise
          (fun a b => a.product ≠ b.product) := by
        apply List.pairwise_filter.mpr
        apply hk.imp_of_mem
        intro a b _ _ hr hpa hpb
        exact hr (hpa.trans hpb.symm)
      have hsym : ∀ {a b : SrcRec}, a.product ≠ b.product → b.product ≠ a.product :=
        fun h => h.symm
      have hne2 : (data'.filter fun r => decide (r.dest = d)).Pairwise
          (fun a b => a.product ≠ b.product) :=
        (hperm.pairwise_iff hsym).mp hne1
      have hs1 : (selectDestRows d data).Pairwise prodLe :=
        List.sorted_insertionSort prodLe _
      have hs2 : (selectDestRows d data').Pairwise prodLe :=
        List.sorted_insertionSort prodLe _
      have hne1s : (selectDestRows d data).Pairwise (fun a b => a.product ≠ b.product) :=
        ((List.perm_insertionSort prodLe _).pairwise_iff hsym).mpr hne1
      have hne2s : (selectDestRows d data').Pairwise (fun a b => a.product ≠ b.product) :=
        ((List.perm_insertionSort prodLe _).pairwise_iff hsym).mpr hne2
      have hstrict1 : (selectDestRows d data).Pairwise prodLt :=
        (hs1.and hne1s).imp fun hab => lt_of_le_of_ne hab.1 hab.2
      have hstrict2 : (selectDestRows d data').Pairwise prodLt :=
        (hs2.and hne2s).imp fun hab => lt_of_le_of_ne hab.1 hab.2
      exact List.eq_of_perm_of_sorted hchain hstrict1 hstrict2
    · have hmd : ((data.map SrcRec.dest).dedup).Perm ((data'.map SrcRec.dest).dedup) :=
        (hp.map SrcRec.dest).dedup
      have hchain : (masterDestinations data).Perm (masterDestinations data') :=
        (List.perm_insertionSort _ _).trans
          (hmd.trans (List.perm_insertionSort _ _).symm)
      exact List.eq_of_perm_of_sorted hchain
        (List.sorted_insertionSort _ _) (List.sorted_insertionSort _ _)

/-- Witness for C10 at a concrete input: the two-record data set has
distinct keys, its reversal is a permutation of it, and both yield the same
selection and destination list. -/
theorem C10_app_presorts_witness :
    KeysNodup dataA ∧ dataA.Perm dataB
    ∧ selectDestRows ['A'] dataA = selectDestRows ['A'] dataB
    ∧ masterDestinations dataA = masterDestinations dataB :=
  ⟨by unfold KeysNodup; decide, by decide,
   ((C10_app_presorts ['A'] dataA dataB).2.2.2 (by unfold KeysNodup; decide) (by decide)).1,
   ((C10_app_presorts ['A'] dataA dataB).2.2.2 (by unfold KeysNodup; decide) (by decide)).2⟩

end IsochPoster
